import Mathlib

set_option autoImplicit false

/-!
Shallow embedding of the hrana client module (src/src/hrana.rs) of
libsql-client-rs: the value/row/result data model, the result decoder
`parse_query_result`, the step-decoding loop of `raw_batch`, the
single-statement `execute` path, the two-phase `shutdown`, and the token
handling of `Client::new`.

Rust panics (out-of-bounds indexing, `Option::unwrap` on `None`) are modeled
by `Option`: `none` is a panic. The `anyhow::Result` layer is modeled by
`Except String`. Network calls are parameterized by the raw response the
stream hands back, so every decode path is a pure function of that response.
-/

/-- Modelled from the spec: `crate::Value` is the tagged union over the scalar
types the wire protocol supports (Null, Integer, Real, Text, Blob); its
definition lives outside this source file. -/
inductive Value where
  | null : Value
  | integer (i : Int) : Value
  | real (x : Float) : Value
  | text (s : String) : Value
  | blob (b : List Nat) : Value

/-- Modelled from the spec: `crate::Row` is a mapping from column name to
`Value`. The map is produced by repeated `HashMap::insert`, so it is modeled
as an association list with unique keys in which an insert overwrites the
existing binding of its key. -/
structure Row where
  cells : List (String × Value)

/-- HashMap::insert on the association list: overwrite the binding of an
existing key, otherwise append a new binding. -/
def insertCell : List (String × Value) → String → Value → List (String × Value)
  | [], k, v => [(k, v)]
  | (k₀, v₀) :: rest, k, v =>
      if k₀ = k then (k, v) :: rest else (k₀, v₀) :: insertCell rest k v

/-- Lookup in the cell map (HashMap::get). -/
def getCell : List (String × Value) → String → Option Value
  | [], _ => none
  | (k₀, v₀) :: rest, k => if k₀ = k then some v₀ else getCell rest k

/-- Modelled from the spec: row lookup by column name, `row.get(name)`. -/
def Row.get (r : Row) (k : String) : Option Value :=
  getCell r.cells k

/-- Modelled from the spec: `crate::ResultSet { columns, rows }`. -/
structure ResultSet where
  columns : List String
  rows : List Row

/-- Modelled from the spec: opaque execution metadata; this module only ever
produces its default value (`crate::Meta::default()`). -/
inductive Meta where
  | default : Meta

/-- Modelled from the spec: `crate::QueryResult`, the per-statement outcome:
`Success((ResultSet, Meta))` or `Error((String, Meta))`. -/
inductive QueryResult where
  | Success (rs : ResultSet) (meta : Meta) : QueryResult
  | Error (message : String) (meta : Meta) : QueryResult

/-- Tag check: the outcome is a `Success`. -/
def QueryResult.isSuccess : QueryResult → Bool
  | QueryResult.Success _ _ => true
  | QueryResult.Error _ _ => false

/-- Tag check: the outcome is an `Error`. -/
def QueryResult.isError : QueryResult → Bool
  | QueryResult.Success _ _ => false
  | QueryResult.Error _ _ => true

/-- Column descriptor of `hrana_client::proto::StmtResult` as used by the
code: only the optional `name` field is read (`c.name.clone().unwrap()`). -/
structure Col where
  name : Option String

/-- Raw per-step success payload `hrana_client::proto::StmtResult` as used by
the code: the column descriptors and the positional rows. -/
structure StmtResult where
  cols : List Col
  rows : List (List Value)

/-- Raw per-step error payload as used by the code (`err.message`). -/
structure StmtError where
  message : String

/-- Raw batch response: the two parallel per-step lists that `raw_batch`
zips (`results.step_results`, `results.step_errors`). -/
structure BatchResult where
  step_results : List (Option StmtResult)
  step_errors : List (Option StmtError)

/-- Modelled from the spec: `crate::Statement { q, params }` as read by this
module. -/
structure Statement where
  q : String
  params : List Value

/-- Wire statement `hrana_client::proto::Stmt::new(sql, want_rows)` together
with its bound parameters, as built by `raw_batch` and `execute`. -/
structure HranaStmt where
  sql : String
  want_rows : Bool
  args : List Value

/-- Embeds the statement-encoding steps shared by `raw_batch` and `execute`:
`Stmt::new(stmt.q, true)` followed by binding each parameter in order. -/
def encodeStmt (stmt : Statement) : HranaStmt :=
  { sql := stmt.q, want_rows := true, args := stmt.params }

/-- Embeds the batch-building loop of `raw_batch`: one encoded step per input
statement, in input order. -/
def encodeBatch (stmts : List Statement) : List HranaStmt :=
  stmts.map encodeStmt

/-- Option-valued collect: evaluates `f` left to right and aborts at the
first `none`, the way a panic aborts a Rust iterator that is being
collected. -/
def mapMO {α β : Type} (f : α → Option β) : List α → Option (List β)
  | [] => some []
  | a :: l => do
      let b ← f a
      let bs ← mapMO f l
      some (b :: bs)

/-- Embeds the cell loop of `parse_query_result`:
`for (i, value) in vec_of_values.iter().enumerate()
   { cells.insert(result.cols[i].name.clone().unwrap(), value.clone()); }`.
The loop walks the positional value list; step `i` reads `cols[i]`, so
running past the end of the column list is the out-of-bounds panic, and a
`None` column name is the `unwrap` panic; both are modeled as `none`. A value
list shorter than the column list simply ends the loop early. -/
def buildCells : List Col → List Value → List (String × Value) → Option (List (String × Value))
  | _, [], cells => some cells
  | [], _ :: _, _ => none
  | c :: cs, v :: vs, cells => do
      let name ← c.name
      buildCells cs vs (insertCell cells name v)

/-- Embeds `parse_query_result` (src/src/hrana.rs lines 47 to 72): decode
each raw row into a `Row` by the cell loop, then read every column name
(`c.name.clone().unwrap()`), and wrap the `ResultSet` in
`Ok(QueryResult::Success(.., Meta::default()))`. The rows are materialized
before the column list, matching the evaluation order of the source. -/
def parse_query_result (result : StmtResult) : Option (Except String QueryResult) := do
  let rows ← mapMO (fun vals => (buildCells result.cols vals []).map Row.mk) result.rows
  let columns ← mapMO (fun c => c.name) result.cols
  some (Except.ok (QueryResult.Success { columns := columns, rows := rows } Meta.default))

/-- Embeds the per-step match inside `raw_batch`: `(Some(result), None)`
decodes the result, `(None, Some(err))` becomes
`QueryResult::Error(err.message)`, and any other combination becomes the
fixed diagnostic error. -/
def decodeStep : Option StmtResult × Option StmtError → Option (Except String QueryResult)
  | (some result, none) => parse_query_result result
  | (none, some err) => some (Except.ok (QueryResult.Error err.message Meta.default))
  | _ => some (Except.ok (QueryResult.Error "Unexpected combination of result and error" Meta.default))

/-- Embeds the `.map(..).collect::<Result<Vec<_>>>()` over the zipped step
lists of `raw_batch`: steps are decoded left to right; a panic (`none`)
aborts, an `Err` stops the collection with that error, and otherwise the
outcomes accumulate in order. -/
def collectSteps : List (Option StmtResult × Option StmtError) → Option (Except String (List QueryResult))
  | [] => some (Except.ok [])
  | s :: rest =>
      match decodeStep s with
      | none => none
      | some (Except.error e) => some (Except.error e)
      | some (Except.ok q) =>
          match collectSteps rest with
          | none => none
          | some (Except.error e) => some (Except.error e)
          | some (Except.ok qs) => some (Except.ok (q :: qs))

/-- Embeds `raw_batch` (src/src/hrana.rs lines 76 to 105), parameterized by
the raw batch response `results` that `stream.execute_batch` hands back: the
code zips `results.step_results` with `results.step_errors` and decodes step
by step. The encoded statements fix the batch that was submitted; they do
not influence the decoding of the response. -/
def raw_batch (stmts : List Statement) (results : BatchResult) : Option (Except String (List QueryResult)) :=
  let _steps := encodeBatch stmts
  collectSteps (results.step_results.zip results.step_errors)

/-- Embeds `execute` (src/src/hrana.rs lines 107 to 115), parameterized by
the outcome of `self.stream.execute(hrana_stmt).await`: the `?` operator
propagates a stream-level `Err` (the only channel through which a
server-side statement failure can reach this function, since the success
type is a bare `StmtResult`) as the call-level error, and a returned
`StmtResult` is decoded by `parse_query_result`. -/
def execute (stmt : Statement) (response : Except String StmtResult) : Option (Except String QueryResult) :=
  let _step := encodeStmt stmt
  match response with
  | Except.error e => some (Except.error e)
  | Except.ok result => parse_query_result result

/-- Embeds `shutdown` (src/src/hrana.rs lines 40 to 44), parameterized by the
outcomes of the two awaited calls. The boolean records whether phase 2
(`self.client_future.await`) was driven at all:
`self.client.shutdown().await?` returns early on error, before the driver
future is ever awaited. -/
def shutdown (phase1 : Except String Unit) (phase2 : Except String Unit) : Except String Unit × Bool :=
  match phase1 with
  | Except.error e => (Except.error e, false)
  | Except.ok _ =>
      match phase2 with
      | Except.error e => (Except.error e, true)
      | Except.ok _ => (Except.ok (), true)

/-- Embeds the token argument of `Client::new` (src/src/hrana.rs lines 21 to
33): `if token.is_empty() { None } else { Some(token) }` is what is handed to
`hrana_client::Client::connect`. -/
def connectToken (token : String) : Option String :=
  if token.isEmpty then none else some token

/-- A raw step result that the decoder handles without panicking: every
column has a name and no row is longer than the column list. -/
def StmtResult.wf (r : StmtResult) : Prop :=
  (∀ c ∈ r.cols, c.name.isSome = true) ∧ ∀ row ∈ r.rows, row.length ≤ r.cols.length

instance (r : StmtResult) : Decidable r.wf := by
  unfold StmtResult.wf
  infer_instance

/-- A zipped step pair with exactly one of result/error present, whose
present result (if any) is itself well-formed. -/
def stepWf : Option StmtResult × Option StmtError → Prop
  | (some r, none) => r.wf
  | (none, some _) => True
  | (some _, some _) => False
  | (none, none) => False

instance (s : Option StmtResult × Option StmtError) : Decidable (stepWf s) := by
  rcases s with ⟨sr, se⟩
  rcases sr with _ | r <;> rcases se with _ | e <;> unfold stepWf <;> infer_instance

/-- A zipped step pair with the inconsistent shape: both of result/error
present, or neither. -/
def inconsistentStep : Option StmtResult × Option StmtError → Prop
  | (some _, some _) => True
  | (none, none) => True
  | _ => False

instance (s : Option StmtResult × Option StmtError) : Decidable (inconsistentStep s) := by
  rcases s with ⟨sr, se⟩
  rcases sr with _ | r <;> rcases se with _ | e <;> unfold inconsistentStep <;> infer_instance

/-- A well-formed batch response for a batch of `n` steps: one entry per step
in each of the two parallel lists, and each zipped step pair well-formed
(exactly one of result/error present, present results decodable). -/
def BatchResult.wellFormed (br : BatchResult) (n : Nat) : Prop :=
  br.step_results.length = n ∧ br.step_errors.length = n ∧
    ∀ s ∈ br.step_results.zip br.step_errors, stepWf s

instance (br : BatchResult) (n : Nat) : Decidable (br.wellFormed n) := by
  unfold BatchResult.wellFormed
  infer_instance

/-- The value at the last position of the zipped column/value lists whose
column bears the name `n`; this is what last-write-wins row materialization
must store under `n`. -/
def lastNamed (cols : List Col) (vals : List Value) (n : String) : Option Value :=
  (((cols.zip vals).reverse.find? (fun p => p.1.name == some n)).map (fun p => p.2))

/-! ### Concrete raw responses used by counterexamples and witnesses -/

/-- A step result whose single row is longer than its column list. -/
def longRowRes : StmtResult :=
  { cols := [{ name := some "a" }], rows := [[Value.integer 1, Value.integer 2]] }

/-- A step result whose single row is shorter than its column list. -/
def shortRowRes : StmtResult :=
  { cols := [{ name := some "a" }, { name := some "b" }], rows := [[Value.integer 1]] }

/-- A well-formed step result with one named column and one single-cell row. -/
def oneCellRes : StmtResult :=
  { cols := [{ name := some "a" }], rows := [[Value.integer 1]] }

/-- The raw step result of the C8 round trip. -/
def roundTripRes : StmtResult :=
  { cols := [{ name := some "a" }, { name := some "b" }],
    rows := [[Value.integer 1, Value.text "x"]] }

/-- The row decoded from `roundTripRes`. -/
def roundTripRow : Row :=
  { cells := [("a", Value.integer 1), ("b", Value.text "x")] }

/-- A step result with a duplicated column name and one row. -/
def dupColRes : StmtResult :=
  { cols := [{ name := some "a" }, { name := some "a" }],
    rows := [[Value.integer 1, Value.integer 2]] }

/-- The result set decoded from `dupColRes`. -/
def dupColSet : ResultSet :=
  { columns := ["a", "a"], rows := [{ cells := [("a", Value.integer 2)] }] }

/-- A concrete statement for the single-statement scenarios. -/
def boomStmt : Statement :=
  { q := "SELECT x", params := [] }

/-- A two-statement batch. -/
def twoStmts : List Statement :=
  [{ q := "SELECT 1", params := [] }, { q := "SELECT oops", params := [] }]

/-- A well-formed two-step response: the first step succeeds, the second
fails server-side. -/
def twoStepResp : BatchResult :=
  { step_results := [some oneCellRes, none],
    step_errors := [none, some { message := "syntax error" }] }

/-- A response whose second step has the inconsistent neither-present shape. -/
def inconsistentResp : BatchResult :=
  { step_results := [some oneCellRes, none],
    step_errors := [none, none] }

/-- A response whose two parallel step lists have different lengths. -/
def unevenResp : BatchResult :=
  { step_results := [some oneCellRes, some oneCellRes],
    step_errors := [none] }

/-! ### Helper lemmas about the cell map -/

lemma getCell_insertCell (cells : List (String × Value)) (k : String) (v : Value) (n : String) :
    getCell (insertCell cells k v) n = if k = n then some v else getCell cells n := by
  induction cells with
  | nil => by_cases h : k = n <;> simp [insertCell, getCell, h]
  | cons p rest ih =>
      obtain ⟨k₀, v₀⟩ := p
      by_cases h₁ : k₀ = k
      · subst h₁
        by_cases h₂ : k₀ = n <;> simp [insertCell, getCell, h₂]
      · by_cases h₂ : k₀ = n
        · subst h₂
          have h₄ : ¬ k = k₀ := fun h => h₁ h.symm
          simp [insertCell, getCell, h₁, h₄]
        · simp [insertCell, getCell, h₁, h₂, ih]

lemma getCell_buildCells (vals : List Value) (cols : List Col)
    (acc m : List (String × Value)) (h : buildCells cols vals acc = some m) (n : String) :
    getCell m n = (lastNamed cols vals n).or (getCell acc n) := by
  induction vals generalizing cols acc with
  | nil =>
      cases cols <;> simp [buildCells] at h <;> subst h <;> simp [lastNamed, getCell]
  | cons v vs ih =>
      cases cols with
      | nil => simp [buildCells] at h
      | cons c cs =>
          rcases hn : c.name with _ | nm
          · simp [buildCells, hn] at h
          · simp only [buildCells, hn, Option.some_bind] at h
            rw [ih cs (insertCell acc nm v) h]
            rw [getCell_insertCell]
            rcases hfind : (cs.zip vs).reverse.find? (fun p => p.1.name == some n) with _ | p
            · have hlast : lastNamed cs vs n = none := by simp [lastNamed, hfind]
              have hhead : lastNamed (c :: cs) (v :: vs) n =
                  if nm = n then some v else none := by
                simp only [lastNamed, List.zip_cons_cons, List.reverse_cons,
                  List.find?_append, hfind, Option.none_or]
                by_cases hnm : nm = n
                · simp [List.find?, hn, hnm]
                · have hbeq : (nm == n) = false := beq_eq_false_iff_ne.mpr hnm
                  simp [List.find?, hn, hbeq, hnm]
              rw [hlast, hhead, Option.none_or]
              by_cases hnm : nm = n
              · simp [hnm]
              · simp [hnm]
            · have hlast : lastNamed cs vs n = some p.2 := by simp [lastNamed, hfind]
              have hhead : lastNamed (c :: cs) (v :: vs) n = some p.2 := by
                simp only [lastNamed, List.zip_cons_cons, List.reverse_cons,
                  List.find?_append, hfind]
                rfl
              rw [hlast, hhead]
              rfl

lemma buildCells_none_of_long (vals : List Value) (cols : List Col)
    (acc : List (String × Value)) (h : cols.length < vals.length) :
    buildCells cols vals acc = none := by
  induction vals generalizing cols acc with
  | nil => simp at h
  | cons v vs ih =>
      cases cols with
      | nil => simp [buildCells]
      | cons c cs =>
          rcases hn : c.name with _ | nm
          · simp [buildCells, hn]
          · simp only [buildCells, hn, Option.some_bind]
            exact ih cs _ (Nat.lt_of_succ_lt_succ (by simpa using h))

lemma buildCells_isSome (vals : List Value) (cols : List Col) (acc : List (String × Value))
    (hlen : vals.length ≤ cols.length) (hname : ∀ c ∈ cols, c.name.isSome = true) :
    ∃ m, buildCells cols vals acc = some m := by
  induction vals generalizing cols acc with
  | nil => cases cols <;> exact ⟨acc, rfl⟩
  | cons v vs ih =>
      cases cols with
      | nil => simp at hlen
      | cons c cs =>
          have hc : c.name.isSome = true := hname c (List.mem_cons_self c cs)
          rcases hn : c.name with _ | nm
          · rw [hn] at hc; simp at hc
          · have hlen₂ : vs.length ≤ cs.length := Nat.le_of_succ_le_succ (by simpa using hlen)
            obtain ⟨m, hm⟩ :=
              ih cs (insertCell acc nm v) hlen₂ (fun x hx => hname x (List.mem_cons_of_mem c hx))
            exact ⟨m, by simp [buildCells, hn, hm]⟩

/-! ### Helper lemmas about the Option-valued collect -/

lemma mapMO_some_inv {α β : Type} (f : α → Option β) (l : List α) (bs : List β)
    (h : mapMO f l = some bs) :
    bs.length = l.length ∧
      ∀ i (h₁ : i < l.length) (h₂ : i < bs.length), f (l.get ⟨i, h₁⟩) = some (bs.get ⟨i, h₂⟩) := by
  induction l generalizing bs with
  | nil =>
      simp [mapMO] at h
      subst h
      exact ⟨rfl, fun i h₁ => absurd h₁ (Nat.not_lt_zero i)⟩
  | cons a l ih =>
      rcases ha : f a with _ | b
      · simp [mapMO, ha] at h
      · rcases hl : mapMO f l with _ | bs₀
        · simp [mapMO, ha, hl] at h
        · simp [mapMO, ha, hl] at h
          subst h
          obtain ⟨hlen, hget⟩ := ih bs₀ hl
          refine ⟨by simp [hlen], ?_⟩
          intro i h₁ h₂
          cases i with
          | zero => simpa using ha
          | succ j =>
              have hj₁ : j < l.length := Nat.lt_of_succ_lt_succ h₁
              have hj₂ : j < bs₀.length := Nat.lt_of_succ_lt_succ h₂
              simpa using hget j hj₁ hj₂

lemma mapMO_isSome_of {α β : Type} (f : α → Option β) (l : List α)
    (h : ∀ a ∈ l, (f a).isSome = true) : ∃ bs, mapMO f l = some bs := by
  induction l with
  | nil => exact ⟨[], rfl⟩
  | cons a l ih =>
      obtain ⟨b, hb⟩ := Option.isSome_iff_exists.mp (h a (List.mem_cons_self a l))
      obtain ⟨bs, hbs⟩ := ih (fun x hx => h x (List.mem_cons_of_mem a hx))
      exact ⟨b :: bs, by simp [mapMO, hb, hbs]⟩

lemma mapMO_none_of_mem {α β : Type} (f : α → Option β) (l : List α) (a : α)
    (ha : a ∈ l) (hf : f a = none) : mapMO f l = none := by
  induction l with
  | nil => simp at ha
  | cons x l ih =>
      rcases List.mem_cons.mp ha with h | h
      · subst h; simp [mapMO, hf]
      · rcases hx : f x with _ | b
        · simp [mapMO, hx]
        · simp [mapMO, hx, ih h]

/-! ### Helper lemmas about the decoder -/

lemma parse_query_result_inv (res : StmtResult) (x : Except String QueryResult)
    (h : parse_query_result res = some x) :
    ∃ rows columns,
      mapMO (fun vals => (buildCells res.cols vals []).map Row.mk) res.rows = some rows ∧
      mapMO (fun c => c.name) res.cols = some columns ∧
      x = Except.ok (QueryResult.Success { columns := columns, rows := rows } Meta.default) := by
  rcases hr : mapMO (fun vals => (buildCells res.cols vals []).map Row.mk) res.rows with _ | rows
  · simp [parse_query_result, hr] at h
  · rcases hc : mapMO (fun c => c.name) res.cols with _ | columns
    · simp [parse_query_result, hr, hc] at h
    · simp [parse_query_result, hr, hc] at h
      exact ⟨rows, columns, rfl, hc, h.symm⟩

lemma parse_query_result_of_wf (res : StmtResult) (h : res.wf) :
    ∃ rs, parse_query_result res = some (Except.ok (QueryResult.Success rs Meta.default)) ∧
      rs.rows.length = res.rows.length ∧ rs.columns.length = res.cols.length := by
  obtain ⟨hname, hrows⟩ := h
  have hrowsOk : ∀ vals ∈ res.rows, ((buildCells res.cols vals []).map Row.mk).isSome = true := by
    intro vals hv
    obtain ⟨m, hm⟩ := buildCells_isSome vals res.cols [] (hrows vals hv) hname
    simp [hm]
  obtain ⟨rows, hrowsEq⟩ := mapMO_isSome_of _ _ hrowsOk
  obtain ⟨columns, hcolsEq⟩ := mapMO_isSome_of (fun c : Col => c.name) _ hname
  refine ⟨{ columns := columns, rows := rows }, ?_, ?_, ?_⟩
  · simp [parse_query_result, hrowsEq, hcolsEq]
  · exact (mapMO_some_inv _ _ _ hrowsEq).1
  · exact (mapMO_some_inv _ _ _ hcolsEq).1

lemma decodeStep_ok (s : Option StmtResult × Option StmtError)
    (h : (decodeStep s).isSome = true) : ∃ q, decodeStep s = some (Except.ok q) := by
  rcases s with ⟨sr, se⟩
  rcases sr with _ | r <;> rcases se with _ | e
  · exact ⟨_, rfl⟩
  · exact ⟨_, rfl⟩
  · rcases hp : parse_query_result r with _ | x
    · rw [show decodeStep (some r, none) = parse_query_result r from rfl, hp] at h
      simp at h
    · obtain ⟨rows, columns, _, _, hx⟩ := parse_query_result_inv r x hp
      exact ⟨_, by rw [show decodeStep (some r, none) = parse_query_result r from rfl, hp, hx]⟩
  · exact ⟨_, rfl⟩

lemma decodeStep_ne_error (s : Option StmtResult × Option StmtError) (e : String) :
    decodeStep s ≠ some (Except.error e) := by
  rcases s with ⟨sr, se⟩
  rcases sr with _ | r <;> rcases se with _ | err
  · simp [decodeStep]
  · simp [decodeStep]
  · intro h
    obtain ⟨rows, columns, _, _, hx⟩ :=
      parse_query_result_inv r (Except.error e)
        (by rw [show decodeStep (some r, none) = parse_query_result r from rfl] at h; exact h)
    exact Except.noConfusion hx
  · simp [decodeStep]

lemma collectSteps_ok (l : List (Option StmtResult × Option StmtError))
    (h : ∀ s ∈ l, ∃ q, decodeStep s = some (Except.ok q)) :
    ∃ qs, collectSteps l = some (Except.ok qs) ∧ qs.length = l.length ∧
      ∀ i (h₁ : i < l.length) (h₂ : i < qs.length),
        decodeStep (l.get ⟨i, h₁⟩) = some (Except.ok (qs.get ⟨i, h₂⟩)) := by
  induction l with
  | nil => exact ⟨[], rfl, rfl, fun i h₁ => absurd h₁ (Nat.not_lt_zero i)⟩
  | cons s rest ih =>
      obtain ⟨q, hq⟩ := h s (List.mem_cons_self s rest)
      obtain ⟨qs, hqs, hlen, hget⟩ := ih (fun x hx => h x (List.mem_cons_of_mem s hx))
      refine ⟨q :: qs, ?_, by simp [hlen], ?_⟩
      · simp [collectSteps, hq, hqs]
      · intro i h₁ h₂
        cases i with
        | zero => simpa using hq
        | succ j =>
            have hj₁ : j < rest.length := Nat.lt_of_succ_lt_succ h₁
            have hj₂ : j < qs.length := Nat.lt_of_succ_lt_succ h₂
            simpa using hget j hj₁ hj₂

/-! ### Claim theorems -/

/-- C6: connecting with an empty token presents no token to the transport
layer (an unauthenticated connection attempt) rather than failing at the
client layer, and a non-empty token is presented exactly as given. -/
theorem connect_empty_token_unauthenticated :
    connectToken "" = none ∧ ∀ t : String, t ≠ "" → connectToken t = some t := by
  refine ⟨rfl, ?_⟩
  intro t ht
  have hf : t.isEmpty = false := by
    cases h : t.isEmpty
    · rfl
    · exact absurd ((String.isEmpty_iff t).mp h) ht
  simp [connectToken, hf]

/-- Witness for C6 at the empty token and a concrete non-empty token. -/
theorem connect_empty_token_unauthenticated_witness :
    connectToken "" = none ∧ connectToken "secret" = some "secret" :=
  ⟨connect_empty_token_unauthenticated.1,
   connect_empty_token_unauthenticated.2 "secret" (by decide)⟩

/-- C8: decoding the raw step result with columns `["a", "b"]` and the single
row `[1, "x"]` yields a `ResultSet` whose row maps `"a"` to `1` and `"b"` to
`"x"` (each column name looks up the value at its position). -/
theorem round_trip_decode :
    parse_query_result roundTripRes =
        some (Except.ok (QueryResult.Success
          { columns := ["a", "b"], rows := [roundTripRow] } Meta.default)) ∧
      roundTripRow.get "a" = some (Value.integer 1) ∧
      roundTripRow.get "b" = some (Value.text "x") :=
  ⟨rfl, rfl, rfl⟩

/-- C9: whenever `parse_query_result` terminates (returns through its result
channel instead of panicking), the value is `Ok` of a `QueryResult::Success`:
no `Err` and no `QueryResult::Error` ever comes out of it. -/
theorem parse_query_result_always_ok_success (res : StmtResult)
    (x : Except String QueryResult) (h : parse_query_result res = some x) :
    ∃ rs, x = Except.ok (QueryResult.Success rs Meta.default) := by
  obtain ⟨rows, columns, _, _, hx⟩ := parse_query_result_inv res x h
  exact ⟨_, hx⟩

/-- Witness for C9 at the empty step result. -/
theorem parse_query_result_always_ok_success_witness :
    ∃ rs, (Except.ok (QueryResult.Success { columns := [], rows := [] } Meta.default)
        : Except String QueryResult) = Except.ok (QueryResult.Success rs Meta.default) :=
  parse_query_result_always_ok_success { cols := [], rows := [] }
    (Except.ok (QueryResult.Success { columns := [], rows := [] } Meta.default)) rfl

/-- Counterexample to C5: when phase 1 (`client.shutdown()`) fails, the `?`
operator returns at once and phase 2 (`client_future.await`) is never driven
(the flag is `false`), contrary to the claim that the Driver is still waited
on while the error is reported. -/
theorem shutdown_counterexample :
    shutdown (Except.error "close failed") (Except.ok ()) =
      (Except.error "close failed", false) :=
  rfl

/-- C5 as amended: `shutdown` drives phase 1 and, only when phase 1 succeeds,
phase 2; on the success path both phases complete before the call returns and
the phase 2 outcome is reported to the caller; a phase 1 error is reported
immediately, with phase 2 never driven. -/
theorem shutdown_two_phase (p₁ p₂ : Except String Unit) :
    ((shutdown p₁ p₂).2 = true ↔ p₁ = Except.ok ()) ∧
      (shutdown (Except.ok ()) p₂).1 = p₂ ∧
      ∀ e, shutdown (Except.error e) p₂ = (Except.error e, false) := by
  refine ⟨?_, ?_, fun e => rfl⟩
  · cases p₁ with
    | error e => simp [shutdown]
    | ok u => cases u; cases p₂ <;> simp [shutdown]
  · cases p₂ <;> rfl

/-- Counterexample to C4: on a server-side statement failure, `raw_batch` on
the singleton batch yields the per-step value `QueryResult::Error`, while
`execute` propagates the failure through `?` as a call-level error; it does
not return a `QueryResult::Error` value, so the caller-visible outcomes of
the two paths differ. -/
theorem execute_vs_raw_batch_counterexample :
    execute boomStmt (Except.error "boom") = some (Except.error "boom") ∧
      raw_batch [boomStmt]
          { step_results := [none], step_errors := [some { message := "boom" }] } =
        some (Except.ok [QueryResult.Error "boom" Meta.default]) ∧
      (some (Except.error "boom") : Option (Except String QueryResult)) ≠
        some (Except.ok (QueryResult.Error "boom" Meta.default)) := by
  refine ⟨rfl, rfl, ?_⟩
  intro h
  injection h with h₂
  exact Except.noConfusion h₂

/-- C4 as amended: the two single-statement paths agree on success outcomes
(the batch path returns the singleton list of exactly the `execute` outcome,
panics included), while on a server-side statement failure `raw_batch`
returns the one `QueryResult::Error` and `execute` reports the failure as a
call-level error instead of a `QueryResult::Error` value. -/
theorem execute_refines_singleton_batch (stmt : Statement) (r : StmtResult) (e : String) :
    raw_batch [stmt] { step_results := [some r], step_errors := [none] } =
        (execute stmt (Except.ok r)).map (Except.map (fun q => [q])) ∧
      execute stmt (Except.error e) = some (Except.error e) ∧
      raw_batch [stmt] { step_results := [none], step_errors := [some { message := e }] } =
        some (Except.ok [QueryResult.Error e Meta.default]) := by
  refine ⟨?_, rfl, rfl⟩
  show collectSteps [(some r, none)] = (parse_query_result r).map (Except.map (fun q => [q]))
  rcases hp : parse_query_result r with _ | x
  · simp [collectSteps, decodeStep, hp]
  · cases x with
    | error err => simp [collectSteps, decodeStep, hp, Except.map]
    | ok q => simp [collectSteps, decodeStep, hp, Except.map]

/-- Counterexample to C2: a row longer than the column list makes the decoder
panic (out-of-bounds indexing, modeled as `none`) instead of yielding a
decode error, and a row shorter than the column list decodes successfully to
a row that silently lacks the cells of the uncovered columns. -/
theorem parse_mismatch_counterexample :
    parse_query_result longRowRes = none ∧
      parse_query_result shortRowRes =
        some (Except.ok (QueryResult.Success
          { columns := ["a", "b"], rows := [{ cells := [("a", Value.integer 1)] }] }
          Meta.default)) :=
  ⟨rfl, rfl⟩

/-- C2 as amended: a row whose positional value list is longer than the
column descriptor list makes decoding panic (modeled as `none`); a
well-formed result (all columns named, no row longer than the column list)
decodes without error even when rows are shorter than the column list, the
uncovered cells being dropped silently; and no decode failure is ever
reported through the error channel. -/
theorem parse_mismatch_behavior :
    (∀ res : StmtResult, (∃ row ∈ res.rows, res.cols.length < row.length) →
        parse_query_result res = none) ∧
      (∀ res : StmtResult, res.wf →
        ∃ rs, parse_query_result res = some (Except.ok (QueryResult.Success rs Meta.default))) ∧
      ∀ (res : StmtResult) (x : Except String QueryResult) (e : String),
        parse_query_result res = some x → x ≠ Except.error e := by
  refine ⟨?_, ?_, ?_⟩
  · rintro res ⟨row, hmem, hlen⟩
    have hb : (buildCells res.cols row []).map Row.mk = none := by
      rw [buildCells_none_of_long row res.cols [] hlen]; rfl
    have hrows : mapMO (fun vals => (buildCells res.cols vals []).map Row.mk) res.rows = none :=
      mapMO_none_of_mem _ _ row hmem hb
    simp [parse_query_result, hrows]
  · intro res hwf
    obtain ⟨rs, hrs, _, _⟩ := parse_query_result_of_wf res hwf
    exact ⟨rs, hrs⟩
  · intro res x e hx
    obtain ⟨rows, columns, _, _, hx₂⟩ := parse_query_result_inv res x hx
    rw [hx₂]
    intro hcontra
    exact Except.noConfusion hcontra

/-- Witness for the amended C2 at concrete inputs. -/
theorem parse_mismatch_behavior_witness :
    parse_query_result longRowRes = none ∧
      (∃ rs, parse_query_result oneCellRes =
        some (Except.ok (QueryResult.Success rs Meta.default))) ∧
      (Except.ok (QueryResult.Success
          { columns := ["a"], rows := [{ cells := [("a", Value.integer 1)] }] } Meta.default)
        : Except String QueryResult) ≠ Except.error "mismatch" :=
  ⟨parse_mismatch_behavior.1 longRowRes
      ⟨[Value.integer 1, Value.integer 2], by simp [longRowRes], by decide⟩,
   parse_mismatch_behavior.2.1 oneCellRes (by decide),
   parse_mismatch_behavior.2.2 oneCellRes
      (Except.ok (QueryResult.Success
        { columns := ["a"], rows := [{ cells := [("a", Value.integer 1)] }] } Meta.default))
      "mismatch" rfl⟩

/-- C1: for a batch of statements and a well-formed response (one entry per
encoded step in each parallel list, exactly one of result/error per step,
present results decodable), `raw_batch` returns `Ok` with exactly one
`QueryResult` per input statement in submission order: step `i` is a
`Success` when the server reported a result and an `Error` carrying the
server message when it reported a failure; a per-step failure never
escalates to a call-level error. -/
theorem raw_batch_per_step_outcomes (stmts : List Statement) (br : BatchResult)
    (h : br.wellFormed (encodeBatch stmts).length) :
    ∃ qs, raw_batch stmts br = some (Except.ok qs) ∧ qs.length = stmts.length ∧
      ∀ i (h₁ : i < br.step_results.length) (h₂ : i < br.step_errors.length)
        (hq : i < qs.length),
        (∀ r, br.step_results.get ⟨i, h₁⟩ = some r → (qs.get ⟨i, hq⟩).isSuccess = true) ∧
        (∀ e, br.step_errors.get ⟨i, h₂⟩ = some e →
          qs.get ⟨i, hq⟩ = QueryResult.Error e.message Meta.default) := by
  obtain ⟨hlr, hle, hsteps⟩ := h
  have hn : (encodeBatch stmts).length = stmts.length := by simp [encodeBatch]
  have hall : ∀ s ∈ br.step_results.zip br.step_errors,
      ∃ q, decodeStep s = some (Except.ok q) := by
    intro s hs
    have hws := hsteps s hs
    rcases s with ⟨sr, se⟩
    rcases sr with _ | r <;> rcases se with _ | e
    · exact absurd hws (by simp [stepWf])
    · exact ⟨_, rfl⟩
    · obtain ⟨rs, hrs, _, _⟩ := parse_query_result_of_wf r hws
      exact ⟨_, by rw [show decodeStep (some r, none) = parse_query_result r from rfl, hrs]⟩
    · exact absurd hws (by simp [stepWf])
  obtain ⟨qs, hqs, hlen, hget⟩ := collectSteps_ok _ hall
  refine ⟨qs, hqs, by rw [hlen, List.length_zip, hlr, hle, hn]; omega, ?_⟩
  intro i h₁ h₂ hq
  have hzi : i < (br.step_results.zip br.step_errors).length := by
    rw [List.length_zip]; exact lt_min h₁ h₂
  have hz : (br.step_results.zip br.step_errors).get ⟨i, hzi⟩ =
      (br.step_results.get ⟨i, h₁⟩, br.step_errors.get ⟨i, h₂⟩) := List.get_zip ..
  have hstep := hget i hzi hq
  have hmem : (br.step_results.zip br.step_errors).get ⟨i, hzi⟩ ∈
      br.step_results.zip br.step_errors := List.get_mem ..
  have hws := hsteps _ hmem
  rw [hz] at hstep hws
  constructor
  · intro r hr
    rw [hr] at hstep hws
    rcases hse : br.step_errors.get ⟨i, h₂⟩ with _ | e
    · rw [hse] at hstep hws
      obtain ⟨rs, hrs, _, _⟩ := parse_query_result_of_wf r hws
      rw [show decodeStep (some r, none) = parse_query_result r from rfl, hrs] at hstep
      have hqi := Except.ok.inj (Option.some.inj hstep)
      rw [← hqi]
      rfl
    · rw [hse] at hws
      exact absurd hws (by simp [stepWf])
  · intro e he
    rw [he] at hstep hws
    rcases hsr : br.step_results.get ⟨i, h₁⟩ with _ | r
    · rw [hsr] at hstep
      exact (Except.ok.inj (Option.some.inj hstep)).symm
    · rw [hsr] at hws
      exact absurd hws (by simp [stepWf])

/-- Witness for C1 at a concrete two-statement batch whose first step
succeeds and whose second step fails server-side. -/
theorem raw_batch_per_step_outcomes_witness :
    ∃ qs, raw_batch twoStmts twoStepResp = some (Except.ok qs) ∧
      qs.length = twoStmts.length ∧
      ∀ i (h₁ : i < twoStepResp.step_results.length)
        (h₂ : i < twoStepResp.step_errors.length) (hq : i < qs.length),
        (∀ r, twoStepResp.step_results.get ⟨i, h₁⟩ = some r →
          (qs.get ⟨i, hq⟩).isSuccess = true) ∧
        (∀ e, twoStepResp.step_errors.get ⟨i, h₂⟩ = some e →
          qs.get ⟨i, hq⟩ = QueryResult.Error e.message Meta.default) :=
  raw_batch_per_step_outcomes twoStmts twoStepResp (by decide)

/-- C3: a step whose raw outcome has the inconsistent shape (both result and
error present, or neither) decodes to `QueryResult::Error` with the fixed
diagnostic message, while the remaining steps are still decoded and
returned: the inconsistency never aborts the `raw_batch` call. -/
theorem inconsistent_step_downgraded (stmts : List Statement) (br : BatchResult) (i : Nat)
    (hi : i < (br.step_results.zip br.step_errors).length)
    (hbad : inconsistentStep ((br.step_results.zip br.step_errors).get ⟨i, hi⟩))
    (hall : ∀ s ∈ br.step_results.zip br.step_errors, (decodeStep s).isSome = true) :
    ∃ qs, raw_batch stmts br = some (Except.ok qs) ∧
      qs.length = (br.step_results.zip br.step_errors).length ∧
      ∀ hq : i < qs.length,
        qs.get ⟨i, hq⟩ =
          QueryResult.Error "Unexpected combination of result and error" Meta.default := by
  have hall₂ : ∀ s ∈ br.step_results.zip br.step_errors,
      ∃ q, decodeStep s = some (Except.ok q) :=
    fun s hs => decodeStep_ok s (hall s hs)
  obtain ⟨qs, hqs, hlen, hget⟩ := collectSteps_ok _ hall₂
  refine ⟨qs, hqs, hlen, ?_⟩
  intro hq
  have hstep := hget i hi hq
  rcases hz : (br.step_results.zip br.step_errors).get ⟨i, hi⟩ with ⟨sr, se⟩
  rw [hz] at hstep hbad
  rcases sr with _ | r <;> rcases se with _ | e
  · exact (Except.ok.inj (Option.some.inj hstep)).symm
  · exact absurd hbad (by simp [inconsistentStep])
  · exact absurd hbad (by simp [inconsistentStep])
  · exact (Except.ok.inj (Option.some.inj hstep)).symm

/-- Witness for C3: in a two-step response the second step has neither a
result nor an error; the first step is still decoded and the call returns
both outcomes, the second being the fixed diagnostic error. -/
theorem inconsistent_step_downgraded_witness :
    ∃ qs, raw_batch twoStmts inconsistentResp = some (Except.ok qs) ∧
      qs.length = (inconsistentResp.step_results.zip inconsistentResp.step_errors).length ∧
      ∀ hq : 1 < qs.length,
        qs.get ⟨1, hq⟩ =
          QueryResult.Error "Unexpected combination of result and error" Meta.default :=
  inconsistent_step_downgraded twoStmts inconsistentResp 1 (by decide) (by decide) (by decide)

/-- C10: `raw_batch` zips the two parallel step lists, so when their lengths
differ it returns only `min` of the two lengths many outcomes, silently
dropping the trailing entries of the longer list; the shape violation is not
reported as an error. -/
theorem raw_batch_zip_truncates (stmts : List Statement) (br : BatchResult)
    (hall : ∀ s ∈ br.step_results.zip br.step_errors, (decodeStep s).isSome = true) :
    ∃ qs, raw_batch stmts br = some (Except.ok qs) ∧
      qs.length = min br.step_results.length br.step_errors.length := by
  have hall₂ : ∀ s ∈ br.step_results.zip br.step_errors,
      ∃ q, decodeStep s = some (Except.ok q) :=
    fun s hs => decodeStep_ok s (hall s hs)
  obtain ⟨qs, hqs, hlen, _⟩ := collectSteps_ok _ hall₂
  refine ⟨qs, hqs, ?_⟩
  rw [hlen, List.length_zip]

/-- Witness for C10 at a response with two step results but a single step
error: only one outcome comes back, with no error reported. -/
theorem raw_batch_zip_truncates_witness :
    ∃ qs, raw_batch twoStmts unevenResp = some (Except.ok qs) ∧
      qs.length = min unevenResp.step_results.length unevenResp.step_errors.length :=
  raw_batch_zip_truncates twoStmts unevenResp (by decide)

/-- C7: whenever decoding succeeds, each decoded row stores under every
column name the value at the last position bearing that name (the repeated
`HashMap::insert` is last-write-wins for duplicated names), while the
columns list still lists every column name in positional order. -/
theorem duplicate_columns_last_write_wins (res : StmtResult) (rs : ResultSet) (m : Meta)
    (h : parse_query_result res = some (Except.ok (QueryResult.Success rs m))) :
    (rs.columns.length = res.cols.length ∧
      ∀ j (hj : j < res.cols.length) (hj₂ : j < rs.columns.length),
        (res.cols.get ⟨j, hj⟩).name = some (rs.columns.get ⟨j, hj₂⟩)) ∧
      rs.rows.length = res.rows.length ∧
      ∀ i (h₁ : i < res.rows.length) (h₂ : i < rs.rows.length) (n : String),
        (rs.rows.get ⟨i, h₂⟩).get n = lastNamed res.cols (res.rows.get ⟨i, h₁⟩) n := by
  obtain ⟨rows, columns, hrows, hcols, hx⟩ := parse_query_result_inv res _ h
  have hinj := Except.ok.inj hx
  injection hinj with hrs hm
  subst hrs
  refine ⟨⟨(mapMO_some_inv _ _ _ hcols).1, ?_⟩, (mapMO_some_inv _ _ _ hrows).1, ?_⟩
  · intro j hj hj₂
    exact (mapMO_some_inv _ _ _ hcols).2 j hj hj₂
  · intro i h₁ h₂ n
    have hrowi := (mapMO_some_inv _ _ _ hrows).2 i h₁ h₂
    rcases hb : buildCells res.cols (res.rows.get ⟨i, h₁⟩) [] with _ | mcells
    · rw [hb] at hrowi
      simp at hrowi
    · rw [hb] at hrowi
      have hrow : Row.mk mcells = rows.get ⟨i, h₂⟩ := Option.some.inj hrowi
      have hc := getCell_buildCells (res.rows.get ⟨i, h₁⟩) res.cols [] mcells hb n
      show (rows.get ⟨i, h₂⟩).get n = _
      rw [← hrow]
      show getCell mcells n = _
      rw [hc]
      rcases hl : lastNamed res.cols (res.rows.get ⟨i, h₁⟩) n with _ | v <;> rfl

/-- Witness for C7 at a result with a duplicated column name: the stored cell
is the value of the last position named "a", and the columns list keeps both
occurrences. -/
theorem duplicate_columns_last_write_wins_witness :
    dupColSet.columns.length = dupColRes.cols.length ∧
      (dupColSet.rows.get ⟨0, by decide⟩).get "a" =
        lastNamed dupColRes.cols (dupColRes.rows.get ⟨0, by decide⟩) "a" :=
  ⟨(duplicate_columns_last_write_wins dupColRes dupColSet Meta.default rfl).1.1,
   (duplicate_columns_last_write_wins dupColRes dupColSet Meta.default rfl).2.2
     0 (by decide) (by decide) "a"⟩
